import Mathlib

/-!
Verification of the scanner package: a bounded-concurrency recursive
directory traversal engine with a filtering predicate library.

The traversal core (the recursive closure inside the Go function scan)
is embedded as a pure recursive function over a filesystem tree; its
two channels become the list of emitted result paths and the list of
emitted read errors.  The asynchronous delivery of those emissions to
the synchronous collector ScanSync is embedded as the set of
interleavings (permutations) of the emitted events, and the collector
itself as a fold over one such interleaving, stopping at the first
error exactly as the Go select loop does.
-/

namespace Scanner

/-- File metadata: the mode type bits and the size carried by the Go
value os.FileInfo.  A mode is regular when every type bit is clear. -/
structure FileInfo where
  size : Int
  modeDir : Bool
  modeSymlink : Bool
  modeNamedPipe : Bool
  modeSocket : Bool
  modeDevice : Bool
  modeCharDevice : Bool
  modeIrregular : Bool
deriving DecidableEq

/-- Embedding of the Go method call on a mode value testing that the
entry describes a regular file: no type bit is set. -/
def FileInfo.isRegular (i : FileInfo) : Bool :=
  !(i.modeDir || i.modeSymlink || i.modeNamedPipe || i.modeSocket ||
    i.modeDevice || i.modeCharDevice || i.modeIrregular)

/-- A directory entry as produced by the listing call: a name, whether
it is a directory, and its lazily resolved metadata, which is none when
the resolution call fails. -/
structure DirEntry where
  name : String
  isDir : Bool
  info : Option FileInfo
deriving DecidableEq

/-- Embedding of filepath.Ext, walking the reversed character list of
the name: the extension is the suffix beginning at the final dot of the
final path element, empty when there is no dot. -/
def filepathExtAux : List Char → List Char → String
  | _, [] => ""
  | acc, c :: cs =>
    if c = '/' then ""
    else if c = '.' then String.mk ('.' :: acc)
    else filepathExtAux (c :: acc) cs

/-- Embedding of filepath.Ext on a file name. -/
def filepathExt (s : String) : String :=
  filepathExtAux [] s.data.reverse

/-- Embedding of filepath.Join for a directory path and a clean child
name, as used by the traversal when forming a child path. -/
def pathJoin (p n : String) : String :=
  p ++ "/" ++ n

/-- FilterDir returns true only for directory entries. -/
def FilterDir (_ : String) (de : DirEntry) : Bool :=
  de.isDir

/-- FilterFile returns true only for non-directory entries. -/
def FilterFile (_ : String) (de : DirEntry) : Bool :=
  !de.isDir

/-- FilterRegular returns true only for regular file entries, and false
when the metadata resolution fails. -/
def FilterRegular (_ : String) (de : DirEntry) : Bool :=
  match de.info with
  | none => false
  | some i => i.isRegular

/-- FilterSymlink returns true only for symbolic link entries, and
false when the metadata resolution fails. -/
def FilterSymlink (_ : String) (de : DirEntry) : Bool :=
  match de.info with
  | none => false
  | some i => i.modeSymlink

/-- FilterDevice returns true only for device file entries, and false
when the metadata resolution fails. -/
def FilterDevice (_ : String) (de : DirEntry) : Bool :=
  match de.info with
  | none => false
  | some i => i.modeDevice

/-- FilterNamedPipe returns true only for named pipe entries, and false
when the metadata resolution fails. -/
def FilterNamedPipe (_ : String) (de : DirEntry) : Bool :=
  match de.info with
  | none => false
  | some i => i.modeNamedPipe

/-- FilterSocket returns true only for socket entries, and false when
the metadata resolution fails. -/
def FilterSocket (_ : String) (de : DirEntry) : Bool :=
  match de.info with
  | none => false
  | some i => i.modeSocket

/-- FilterCharDev returns true only for character device entries, and
false when the metadata resolution fails. -/
def FilterCharDev (_ : String) (de : DirEntry) : Bool :=
  match de.info with
  | none => false
  | some i => i.modeCharDevice

/-- FilterByExtension returns a filter matching non-directory entries
whose name extension equals the given string, with or without the
leading dot. -/
def FilterByExtension (e : String) : String → DirEntry → Bool :=
  fun _ de =>
    if de.isDir then false
    else
      let ext := filepathExt de.name
      ext == e || ext == "." ++ e

/-- FilterBySize returns a filter comparing the resolved size of the
entry against the threshold with the given operator string, returning
false when the metadata resolution fails or the operator is unknown. -/
def FilterBySize (size : Int) (op : String) : String → DirEntry → Bool :=
  fun _ de =>
    match de.info with
    | none => false
    | some i =>
      let s := i.size
      if op = "<" then decide (s < size)
      else if op = "<=" then decide (s ≤ size)
      else if op = ">" then decide (s > size)
      else if op = ">=" then decide (s ≥ size)
      else if op = "=" then s == size
      else if op = "==" then s == size
      else if op = "!=" then s != size
      else false

/-- A filter predicate as passed to the traversal. -/
abbrev ScanFilter := String → DirEntry → Bool

mutual

/-- A filesystem tree node: a non-directory leaf with its optional
metadata, or a directory with its readability (whether the listing
call on it succeeds) and its children. -/
inductive FSNode where
  | file (name : String) (info : Option FileInfo)
  | dir (name : String) (readable : Bool) (info : Option FileInfo) (children : FSForest)

/-- A list of sibling filesystem nodes in listing order. -/
inductive FSForest where
  | nil
  | cons (hd : FSNode) (tl : FSForest)

end

/-- The name under which a node appears in its parent listing. -/
def FSNode.entryName : FSNode → String
  | .file n _ => n
  | .dir n _ _ _ => n

/-- Whether the listing reports the node as a directory. -/
def FSNode.isDirNode : FSNode → Bool
  | .file _ _ => false
  | .dir _ _ _ _ => true

/-- The optional metadata the listing resolves for the node. -/
def FSNode.entryInfo : FSNode → Option FileInfo
  | .file _ i => i
  | .dir _ _ i _ => i

/-- The directory entry the listing produces for the node. -/
def FSNode.entry (t : FSNode) : DirEntry :=
  ⟨t.entryName, t.isDirNode, t.entryInfo⟩

/-- Concatenation of two sibling lists. -/
def FSForest.append : FSForest → FSForest → FSForest
  | .nil, bs => bs
  | .cons a as, bs => .cons a (as.append bs)

mutual

/-- Whether every directory read in the tree succeeds: the node itself
when it is a directory, and recursively all of its descendants. -/
def allReadable : FSNode → Bool
  | .file _ _ => true
  | .dir _ r _ cs => r && allReadableF cs

/-- Forest version of allReadable. -/
def allReadableF : FSForest → Bool
  | .nil => true
  | .cons c cs => allReadable c && allReadableF cs

end

mutual

/-- Embedding of the recursive closure inside scan, reading the
directory reached at path pp (modelled by the node it denotes) with
remaining depth mm.  The first component collects the paths sent to
the result channel, the second the failing paths sent to the error
channel (the Go error value carries the failing path).  A read of a
non-directory or of an unreadable directory fails and contributes one
error and nothing else; otherwise each child is skipped entirely when
the filter rejects it, and an accepted child is emitted and, when it
is a directory and the remaining depth is nonzero, recursed into with
depth decremented by one. -/
def scanDo (fn : Option ScanFilter) : FSNode → String → Int → List String × List String
  | .file _ _, pp, _ => ([], [pp])
  | .dir _ r _ cs, pp, mm =>
    if r then scanKids fn cs pp mm else ([], [pp])

/-- Embedding of the loop over the listed entries inside scan. -/
def scanKids (fn : Option ScanFilter) : FSForest → String → Int → List String × List String
  | .nil, _, _ => ([], [])
  | .cons c cs, pp, mm =>
    let cp := pathJoin pp c.entryName
    let rest := scanKids fn cs pp mm
    if (match fn with | some f => !f cp c.entry | none => false) then rest
    else
      let sub := if mm ≠ 0 ∧ c.isDirNode = true then scanDo fn c cp (mm - 1) else ([], [])
      (cp :: (sub.1 ++ rest.1), sub.2 ++ rest.2)

end

/-- The paths scan sends to the result channel. -/
def scanResults (fn : Option ScanFilter) (t : FSNode) (root : String) (m : Int) : List String :=
  (scanDo fn t root m).1

/-- The failing paths scan sends to the error channel. -/
def scanFailures (fn : Option ScanFilter) (t : FSNode) (root : String) (m : Int) : List String :=
  (scanDo fn t root m).2

/-- One emission observed by the consumer of the two conduits: a
result path or a read error carrying the failing path. -/
inductive ScanEvent where
  | res (p : String)
  | fail (e : String)
deriving DecidableEq

/-- The multiset of emissions of a whole traversal, in one canonical
order. -/
def scanStream (fn : Option ScanFilter) (t : FSNode) (root : String) (m : Int) : List ScanEvent :=
  (scanResults fn t root m).map ScanEvent.res ++ (scanFailures fn t root m).map ScanEvent.fail

/-- The consumer draining the two conduits may observe the emissions
in any interleaving: an observation is any permutation of the emitted
events.  Every concrete schedule of the concurrent traversal yields
one such permutation. -/
abbrev Observes (fn : Option ScanFilter) (t : FSNode) (root : String) (m : Int)
    (sched : List ScanEvent) : Prop :=
  List.Perm sched (scanStream fn t root m)

/-- Embedding of the drain loop of ScanSync over one observation:
results are accumulated in arrival order until the first error event,
at which point the accumulated results and that error are returned;
when the conduits close without an error, every result and no error
is returned. -/
def collectSync : List ScanEvent → List String × Option String
  | [] => ([], none)
  | ScanEvent.res p :: sched => ((collectSync sched).1.cons p, (collectSync sched).2)
  | ScanEvent.fail e :: _ => ([], some e)

mutual

/-- Independent full recursive listing: every path strictly under the
given root, at every depth, formed with the same path join. -/
def allPathsUnder : FSNode → String → List String
  | .file _ _, _ => []
  | .dir _ _ _ cs, root => allPathsUnderF cs root

/-- Forest version of allPathsUnder. -/
def allPathsUnderF : FSForest → String → List String
  | .nil, _ => []
  | .cons c cs, root =>
    pathJoin root c.entryName ::
      (allPathsUnder c (pathJoin root c.entryName) ++ allPathsUnderF cs root)

end

mutual

/-- Independent listing bounded by level: level one lists the
immediate children of the root, level two adds the grandchildren, and
so on; level zero lists nothing. -/
def pathsToLevel : Nat → FSNode → String → List String
  | _, .file _ _, _ => []
  | 0, .dir _ _ _ _, _ => []
  | k + 1, .dir _ _ _ cs, root => pathsToLevelF k cs root

/-- Forest version of pathsToLevel: lists each sibling and descends
with the level budget unchanged for this listing step. -/
def pathsToLevelF : Nat → FSForest → String → List String
  | _, .nil, _ => []
  | k, .cons c cs, root =>
    pathJoin root c.entryName ::
      (pathsToLevel k c (pathJoin root c.entryName) ++ pathsToLevelF k cs root)

end

/-- Concrete tree with one readable subdirectory holding one file,
used to exercise the traversal on a small input. -/
def witTree1 : FSNode :=
  .dir ("r") true none (.cons (.dir ("d") true none (.cons (.file ("a") none) .nil)) .nil)

/-- Concrete tree with a readable subdirectory containing one file,
used to exercise filtering against descent. -/
def treeCex2 : FSNode :=
  .dir ("root") true none
    (.cons (.dir ("sub") true none (.cons (.file ("a.txt") none) .nil)) .nil)

/-- Concrete tree with one unreadable subdirectory listed before a
readable sibling file. -/
def treeCex4 : FSNode :=
  .dir ("root") true none
    (.cons (.dir ("bad") false none .nil) (.cons (.file ("a.txt") none) .nil))

/-- A non-directory entry whose metadata reports a symbolic link of
size 2000 bytes. -/
def symlinkEntry : DirEntry :=
  ⟨"link", false, some ⟨2000, false, true, false, false, false, false, false⟩⟩

/-- A directory entry named like a Go source file. -/
def dirGoEntry : DirEntry := ⟨"foo.go", true, none⟩

/-- A non-directory entry whose metadata resolution fails. -/
def noInfoEntry : DirEntry := ⟨"x", false, none⟩

theorem allReadable_dir {n : String} {r : Bool} {i : Option FileInfo} {cs : FSForest}
    (h : allReadable (.dir n r i cs) = true) : r = true ∧ allReadableF cs = true := by
  simpa [allReadable, Bool.and_eq_true] using h

theorem allReadableF_cons {c : FSNode} {cs : FSForest}
    (h : allReadableF (.cons c cs) = true) : allReadable c = true ∧ allReadableF cs = true := by
  simpa [allReadableF, Bool.and_eq_true] using h

theorem scanKids_cons_none (c : FSNode) (cs : FSForest) (pp : String) (m : Int) :
    scanKids none (.cons c cs) pp m =
      ((pathJoin pp c.entryName) ::
        ((if m ≠ 0 ∧ c.isDirNode = true
            then scanDo none c (pathJoin pp c.entryName) (m - 1) else ([], [])).1
          ++ (scanKids none cs pp m).1),
       (if m ≠ 0 ∧ c.isDirNode = true
            then scanDo none c (pathJoin pp c.entryName) (m - 1) else ([], [])).2
          ++ (scanKids none cs pp m).2) := rfl

theorem pathsToLevel_file (k : Nat) (fx : String) (fi : Option FileInfo) (root : String) :
    pathsToLevel k (.file fx fi) root = [] := by
  cases k <;> rfl

theorem fs_mutual_ind (P : FSNode → Prop) (Q : FSForest → Prop)
    (hfile : ∀ n i, P (.file n i))
    (hdir : ∀ n r i cs, Q cs → P (.dir n r i cs))
    (hnil : Q .nil)
    (hcons : ∀ c cs, P c → Q cs → Q (.cons c cs)) :
    (∀ t, P t) ∧ (∀ cs, Q cs) :=
  ⟨fun t => @FSNode.rec P Q hfile hdir hnil hcons t,
   fun cs => @FSForest.rec P Q hfile hdir hnil hcons cs⟩

theorem scan_unlimited_all :
    (∀ t : FSNode, ∀ (pp : String) (m : Int), m < 0 → allReadable t = true →
       t.isDirNode = true → scanDo none t pp m = (allPathsUnder t pp, []))
    ∧ (∀ cs : FSForest, ∀ (pp : String) (m : Int), m < 0 → allReadableF cs = true →
       scanKids none cs pp m = (allPathsUnderF cs pp, [])) := by
  refine fs_mutual_ind
    (fun t => ∀ (pp : String) (m : Int), m < 0 → allReadable t = true →
      t.isDirNode = true → scanDo none t pp m = (allPathsUnder t pp, []))
    (fun cs => ∀ (pp : String) (m : Int), m < 0 → allReadableF cs = true →
      scanKids none cs pp m = (allPathsUnderF cs pp, [])) ?_ ?_ ?_ ?_
  · intro n i pp m hm hr hd
    simp [FSNode.isDirNode] at hd
  · intro n r i cs hQ pp m hm hr _
    obtain ⟨hrr, hcs⟩ := allReadable_dir hr
    subst hrr
    simp [scanDo, allPathsUnder, hQ pp m hm hcs]
  · intro pp m hm hcs
    simp [scanKids, allPathsUnderF]
  · intro c cs hP hQ pp m hm hcs
    obtain ⟨hc, hcs2⟩ := allReadableF_cons hcs
    have hrest := hQ pp m hm hcs2
    cases c with
    | file fx fi =>
      simp [scanKids, allPathsUnderF, allPathsUnder, FSNode.isDirNode, hrest]
    | dir dn dr di dcs =>
      have hm1 : m - 1 < 0 := by omega
      have hmne : m ≠ 0 := by omega
      have hsub := hP (pathJoin pp dn) (m - 1) hm1 hc rfl
      simp [scanKids, allPathsUnderF, FSNode.isDirNode, FSNode.entryName, hmne, hrest, hsub]

theorem scanDo_unlimited (t : FSNode) (pp : String) (m : Int) (hm : m < 0)
    (hr : allReadable t = true) (hd : t.isDirNode = true) :
    scanDo none t pp m = (allPathsUnder t pp, []) :=
  scan_unlimited_all.1 t pp m hm hr hd

theorem scan_levels_all :
    (∀ t : FSNode, ∀ (pp : String) (k : Nat), allReadable t = true →
       t.isDirNode = true → scanDo none t pp (k : Int) = (pathsToLevel (k + 1) t pp, []))
    ∧ (∀ cs : FSForest, ∀ (pp : String) (k : Nat), allReadableF cs = true →
       scanKids none cs pp (k : Int) = (pathsToLevelF k cs pp, [])) := by
  refine fs_mutual_ind
    (fun t => ∀ (pp : String) (k : Nat), allReadable t = true →
      t.isDirNode = true → scanDo none t pp (k : Int) = (pathsToLevel (k + 1) t pp, []))
    (fun cs => ∀ (pp : String) (k : Nat), allReadableF cs = true →
      scanKids none cs pp (k : Int) = (pathsToLevelF k cs pp, [])) ?_ ?_ ?_ ?_
  · intro n i pp k hr hd
    simp [FSNode.isDirNode] at hd
  · intro n r i cs hQ pp k hr _
    obtain ⟨hrr, hcs⟩ := allReadable_dir hr
    subst hrr
    simp [scanDo, pathsToLevel, hQ pp k hcs]
  · intro pp k hcs
    simp [scanKids, pathsToLevelF]
  · intro c cs hP hQ pp k hcs
    obtain ⟨hc, hcs2⟩ := allReadableF_cons hcs
    have hrest := hQ pp k hcs2
    rw [scanKids_cons_none]
    cases c with
    | file fx fi =>
      have hcond : ¬(((k : Nat) : Int) ≠ 0 ∧ (FSNode.file fx fi).isDirNode = true) := by
        simp [FSNode.isDirNode]
      rw [if_neg hcond]
      simp [pathsToLevelF, pathsToLevel_file, hrest]
    | dir dn dr di dcs =>
      cases k with
      | zero =>
        have hcond : ¬(((0 : Nat) : Int) ≠ 0 ∧ (FSNode.dir dn dr di dcs).isDirNode = true) := by
          simp
        rw [if_neg hcond]
        rw [Nat.cast_zero] at hrest
        simp [pathsToLevelF, pathsToLevel, hrest]
      | succ j =>
        have hmne : ((j + 1 : Nat) : Int) ≠ 0 := by
          omega
        have hcond : ((j + 1 : Nat) : Int) ≠ 0 ∧ (FSNode.dir dn dr di dcs).isDirNode = true :=
          ⟨hmne, rfl⟩
        rw [if_pos hcond]
        have hcast : ((j + 1 : Nat) : Int) - 1 = (j : Int) := by
          omega
        rw [hcast]
        have hsub := hP (pathJoin pp dn) j hc rfl
        simp only [Nat.cast_add, Nat.cast_one] at hrest
        simp [FSNode.entryName, pathsToLevelF, pathsToLevel, hrest, hsub]

theorem scanDo_levels (t : FSNode) (pp : String) (k : Nat)
    (hr : allReadable t = true) (hd : t.isDirNode = true) :
    scanDo none t pp (k : Int) = (pathsToLevel (k + 1) t pp, []) :=
  scan_levels_all.1 t pp k hr hd

theorem scanKids_cons_some (f : ScanFilter) (c : FSNode) (cs : FSForest)
    (pp : String) (m : Int) :
    scanKids (some f) (.cons c cs) pp m =
      if (!f (pathJoin pp c.entryName) c.entry) = true
      then scanKids (some f) cs pp m
      else
        ((pathJoin pp c.entryName) ::
          ((if m ≠ 0 ∧ c.isDirNode = true
              then scanDo (some f) c (pathJoin pp c.entryName) (m - 1) else ([], [])).1
            ++ (scanKids (some f) cs pp m).1),
         (if m ≠ 0 ∧ c.isDirNode = true
              then scanDo (some f) c (pathJoin pp c.entryName) (m - 1) else ([], [])).2
          ++ (scanKids (some f) cs pp m).2) := rfl

theorem scan_noFail_all :
    (∀ t : FSNode, ∀ (pp : String) (m : Int), allReadable t = true →
       t.isDirNode = true → (scanDo none t pp m).2 = [])
    ∧ (∀ cs : FSForest, ∀ (pp : String) (m : Int), allReadableF cs = true →
       (scanKids none cs pp m).2 = []) := by
  refine fs_mutual_ind
    (fun t => ∀ (pp : String) (m : Int), allReadable t = true →
      t.isDirNode = true → (scanDo none t pp m).2 = [])
    (fun cs => ∀ (pp : String) (m : Int), allReadableF cs = true →
      (scanKids none cs pp m).2 = []) ?_ ?_ ?_ ?_
  · intro n i pp m hr hd
    simp [FSNode.isDirNode] at hd
  · intro n r i cs hQ pp m hr _
    obtain ⟨hrr, hcs⟩ := allReadable_dir hr
    subst hrr
    simp [scanDo, hQ pp m hcs]
  · intro pp m hcs
    simp [scanKids]
  · intro c cs hP hQ pp m hcs
    obtain ⟨hc, hcs2⟩ := allReadableF_cons hcs
    rw [scanKids_cons_none]
    by_cases hcond : m ≠ 0 ∧ c.isDirNode = true
    · rw [if_pos hcond]
      simp [hP (pathJoin pp c.entryName) (m - 1) hc hcond.2, hQ pp m hcs2]
    · rw [if_neg hcond]
      simp [hQ pp m hcs2]

theorem scan_filter_subset_all :
    (∀ t : FSNode, ∀ (f : ScanFilter) (pp : String) (m : Int) (x : String),
       x ∈ (scanDo (some f) t pp m).1 → x ∈ (scanDo none t pp m).1)
    ∧ (∀ cs : FSForest, ∀ (f : ScanFilter) (pp : String) (m : Int) (x : String),
       x ∈ (scanKids (some f) cs pp m).1 → x ∈ (scanKids none cs pp m).1) := by
  refine fs_mutual_ind
    (fun t => ∀ (f : ScanFilter) (pp : String) (m : Int) (x : String),
      x ∈ (scanDo (some f) t pp m).1 → x ∈ (scanDo none t pp m).1)
    (fun cs => ∀ (f : ScanFilter) (pp : String) (m : Int) (x : String),
      x ∈ (scanKids (some f) cs pp m).1 → x ∈ (scanKids none cs pp m).1) ?_ ?_ ?_ ?_
  · intro n i f pp m x hx
    simp [scanDo] at hx
  · intro n r i cs hQ f pp m x hx
    cases r with
    | false => simp [scanDo] at hx
    | true =>
      simp only [scanDo] at hx ⊢
      simp only [if_pos] at hx ⊢
      exact hQ f pp m x hx
  · intro f pp m x hx
    simp [scanKids] at hx
  · intro c cs hP hQ f pp m x hx
    rw [scanKids_cons_some] at hx
    rw [scanKids_cons_none]
    by_cases hrej : (!f (pathJoin pp c.entryName) c.entry) = true
    · rw [if_pos hrej] at hx
      have hx2 := hQ f pp m x hx
      exact List.mem_cons_of_mem _ (List.mem_append_right _ hx2)
    · rw [if_neg hrej] at hx
      rcases List.mem_cons.mp hx with heq | hmem
      · exact heq ▸ List.mem_cons_self _ _
      · rcases List.mem_append.mp hmem with hsub | hrest
        · by_cases hcond : m ≠ 0 ∧ c.isDirNode = true
          · rw [if_pos hcond] at hsub ⊢
            exact List.mem_cons_of_mem _
              (List.mem_append_left _ (hP f (pathJoin pp c.entryName) (m - 1) x hsub))
          · rw [if_neg hcond] at hsub
            simp at hsub
        · exact List.mem_cons_of_mem _ (List.mem_append_right _ (hQ f pp m x hrest))

theorem scanKids_append_eq :
    ∀ (as bs : FSForest) (fn : Option ScanFilter) (pp : String) (m : Int),
    scanKids fn (as.append bs) pp m =
      ((scanKids fn as pp m).1 ++ (scanKids fn bs pp m).1,
       (scanKids fn as pp m).2 ++ (scanKids fn bs pp m).2) := by
  have h := fs_mutual_ind (fun _ => True)
    (fun as => ∀ (bs : FSForest) (fn : Option ScanFilter) (pp : String) (m : Int),
      scanKids fn (as.append bs) pp m =
        ((scanKids fn as pp m).1 ++ (scanKids fn bs pp m).1,
         (scanKids fn as pp m).2 ++ (scanKids fn bs pp m).2))
    (fun _ _ => trivial) (fun _ _ _ _ _ => trivial)
    (by intro bs fn pp m; simp [FSForest.append, scanKids])
    ?_
  · exact h.2
  · intro c cs _ hQ bs fn pp m
    have ih := hQ bs fn pp m
    show scanKids fn (.cons c (cs.append bs)) pp m = _
    cases fn with
    | none =>
      rw [scanKids_cons_none, scanKids_cons_none, ih]
      simp
    | some f =>
      rw [scanKids_cons_some, scanKids_cons_some]
      by_cases hb : (!f (pathJoin pp c.entryName) c.entry) = true
      · rw [if_pos hb, if_pos hb, ih]
      · rw [if_neg hb, if_neg hb, ih]
        simp

theorem scanKids_cons_zero_none (c : FSNode) (cs : FSForest) (pp : String) :
    scanKids none (.cons c cs) pp 0 =
      ((pathJoin pp c.entryName) :: (scanKids none cs pp 0).1,
       (scanKids none cs pp 0).2) := by
  rw [scanKids_cons_none, if_neg (show ¬((0 : Int) ≠ 0 ∧ c.isDirNode = true) by simp)]
  simp

theorem scanKids_cons_zero_some (f : ScanFilter) (c : FSNode) (cs : FSForest) (pp : String) :
    scanKids (some f) (.cons c cs) pp 0 =
      if (!f (pathJoin pp c.entryName) c.entry) = true
      then scanKids (some f) cs pp 0
      else
        ((pathJoin pp c.entryName) :: (scanKids (some f) cs pp 0).1,
         (scanKids (some f) cs pp 0).2) := by
  by_cases hb : (!f (pathJoin pp c.entryName) c.entry) = true
  · rw [scanKids_cons_some, if_pos hb, if_pos hb]
  · rw [scanKids_cons_some, if_neg hb, if_neg hb,
      if_neg (show ¬((0 : Int) ≠ 0 ∧ c.isDirNode = true) by simp)]
    simp

theorem scanKids_zero_count :
    ∀ (cs : FSForest) (pp p : String),
    ((scanKids none cs pp 0).1.count p) =
      ((scanKids (some FilterDir) cs pp 0).1.count p) +
      ((scanKids (some FilterFile) cs pp 0).1.count p) := by
  have h := fs_mutual_ind (fun _ => True)
    (fun cs => ∀ (pp p : String),
      ((scanKids none cs pp 0).1.count p) =
        ((scanKids (some FilterDir) cs pp 0).1.count p) +
        ((scanKids (some FilterFile) cs pp 0).1.count p))
    (fun _ _ => trivial) (fun _ _ _ _ _ => trivial)
    (by intro pp p; simp [scanKids])
    ?_
  · exact h.2
  · intro c cs _ hQ pp p
    have ih := hQ pp p
    rw [scanKids_cons_zero_none, scanKids_cons_zero_some, scanKids_cons_zero_some]
    cases hd : c.isDirNode with
    | true =>
      rw [if_neg (show ¬((!FilterDir (pathJoin pp c.entryName) c.entry) = true) by
            simp [FilterDir, FSNode.entry, hd]),
        if_pos (show (!FilterFile (pathJoin pp c.entryName) c.entry) = true by
            simp [FilterFile, FSNode.entry, hd])]
      simp [List.count_cons, ih]
      omega
    | false =>
      rw [if_pos (show (!FilterDir (pathJoin pp c.entryName) c.entry) = true by
            simp [FilterDir, FSNode.entry, hd]),
        if_neg (show ¬((!FilterFile (pathJoin pp c.entryName) c.entry) = true) by
            simp [FilterFile, FSNode.entry, hd])]
      simp [List.count_cons, ih]
      omega

theorem count_map_res (l : List String) (q : String) :
    (l.map ScanEvent.res).count (ScanEvent.res q) = l.count q := by
  induction l with
  | nil => simp
  | cons a l ih => simp [List.count_cons, ih]

theorem collectSync_res_only :
    ∀ sched : List ScanEvent, (∀ x ∈ sched, ∃ p, x = ScanEvent.res p) →
    (collectSync sched).2 = none ∧
      ∀ q, ((collectSync sched).1.count q) = sched.count (ScanEvent.res q) := by
  intro sched
  induction sched with
  | nil =>
    intro _
    simp [collectSync]
  | cons a sched ih =>
    intro h
    obtain ⟨p, hp⟩ := h a (List.mem_cons_self a sched)
    subst hp
    have ih2 := ih (fun x hx => h x (List.mem_cons_of_mem _ hx))
    refine ⟨by simp [collectSync, ih2.1], ?_⟩
    intro q
    simp [collectSync, List.count_cons, ih2.2 q]

theorem collectSync_first_fail :
    ∀ sched : List ScanEvent, (∃ e, ScanEvent.fail e ∈ sched) →
    ∃ rs e, collectSync sched = (rs, some e) ∧ ScanEvent.fail e ∈ sched ∧
      ∀ p ∈ rs, ScanEvent.res p ∈ sched := by
  intro sched
  induction sched with
  | nil =>
    rintro ⟨e, he⟩
    simp at he
  | cons a sched ih =>
    intro h
    cases a with
    | fail e =>
      exact ⟨[], e, rfl, List.mem_cons_self _ _, by simp⟩
    | res p =>
      obtain ⟨e, he⟩ := h
      have he2 : ScanEvent.fail e ∈ sched := by
        rcases List.mem_cons.mp he with h1 | h2
        · simp at h1
        · exact h2
      obtain ⟨rs, e2, hcol, hmem, hres⟩ := ih ⟨e, he2⟩
      refine ⟨p :: rs, e2, ?_, List.mem_cons_of_mem _ hmem, ?_⟩
      · simp [collectSync, hcol]
      · intro q hq
        rcases List.mem_cons.mp hq with h1 | h2
        · subst h1
          exact List.mem_cons_self _ _
        · exact List.mem_cons_of_mem _ (hres q h2)

theorem filepathExtAux_shape :
    ∀ (rev acc : List Char), (∀ c ∈ acc, c ≠ '.') →
    filepathExtAux acc rev = "" ∨
      ∃ l, filepathExtAux acc rev = String.mk ('.' :: l) ∧ ∀ c ∈ l, c ≠ '.' := by
  intro rev
  induction rev with
  | nil =>
    intro acc _
    left
    rfl
  | cons c cs ih =>
    intro acc h
    by_cases h1 : c = '/'
    · left
      simp [filepathExtAux, h1]
    · by_cases h2 : c = '.'
      · right
        exact ⟨acc, by simp [filepathExtAux, h1, h2], h⟩
      · have hacc : ∀ d ∈ (c :: acc), d ≠ '.' := by
          intro d hd
          rcases List.mem_cons.mp hd with h3 | h3
          · exact h3 ▸ h2
          · exact h d h3
        have := ih (c :: acc) hacc
        simpa [filepathExtAux, h1, h2] using this

theorem filepathExt_shape (s : String) :
    filepathExt s = "" ∨
      ∃ l, filepathExt s = String.mk ('.' :: l) ∧ ∀ c ∈ l, c ≠ '.' :=
  filepathExtAux_shape s.data.reverse [] (by intro c hc; simp at hc)

theorem filepathExt_ne_go (s : String) : filepathExt s ≠ "go" := by
  rcases filepathExt_shape s with h | ⟨l, h, _⟩
  · rw [h]
    decide
  · rw [h]
    intro hc
    have h2 := congrArg String.data hc
    simp at h2

theorem filepathExt_ne_dotdotgo (s : String) : filepathExt s ≠ "..go" := by
  rcases filepathExt_shape s with h | ⟨l, h, hl⟩
  · rw [h]
    decide
  · rw [h]
    intro hc
    have h2 := congrArg String.data hc
    simp at h2
    exact hl '.' (h2 ▸ List.mem_cons_self '.' _) rfl

/-- Claim C1: for every directory tree in which no directory read
fails, the synchronous scan at unlimited depth with no filter returns,
under every possible interleaving of the two conduits, a nil error
together with a result list whose multiset of paths equals the
independent full recursive listing of every path strictly under the
root: every reachable entry, at every depth, exactly once. -/
theorem claim_C1 (t : FSNode) (root : String) (sched : List ScanEvent)
    (hd : t.isDirNode = true) (hr : allReadable t = true)
    (hobs : Observes none t root (-1) sched) :
    (collectSync sched).2 = none ∧
      ∀ q, ((collectSync sched).1.count q) = ((allPathsUnder t root).count q) := by
  have hscan := scanDo_unlimited t root (-1) (by omega) hr hd
  have hstream : scanStream none t root (-1) = (allPathsUnder t root).map ScanEvent.res := by
    simp [scanStream, scanResults, scanFailures, hscan]
  rw [Observes, hstream] at hobs
  have hres : ∀ x ∈ sched, ∃ p, x = ScanEvent.res p := by
    intro x hx
    obtain ⟨p, _, hp⟩ := List.mem_map.mp (hobs.mem_iff.mp hx)
    exact ⟨p, hp.symm⟩
  obtain ⟨h2, hcount⟩ := collectSync_res_only sched hres
  refine ⟨h2, ?_⟩
  intro q
  rw [hcount q, hobs.count_eq, count_map_res]

/-- Witness for claim C1 on a concrete readable tree and a concrete
interleaving. -/
theorem claim_C1_witness :
    (collectSync [ScanEvent.res ("r/d/a"), ScanEvent.res ("r/d")]).2 = none ∧
      ((collectSync [ScanEvent.res ("r/d/a"), ScanEvent.res ("r/d")]).1.count ("r/d")) =
        ((allPathsUnder witTree1 ("r")).count ("r/d")) :=
  ⟨(claim_C1 witTree1 ("r") [ScanEvent.res ("r/d/a"), ScanEvent.res ("r/d")]
      (by decide) (by decide) (by decide)).1,
   (claim_C1 witTree1 ("r") [ScanEvent.res ("r/d/a"), ScanEvent.res ("r/d")]
      (by decide) (by decide) (by decide)).2 ("r/d")⟩

/-- Claim C3: depth semantics of the traversal on a fully readable
tree: depth zero lists exactly the immediate children of the root and
recurses into nothing, depth one lists children and grandchildren
only, a nonnegative depth lists exactly the levels down to that depth
plus one (decrementing by one per level), and a negative depth lists
every level. -/
theorem claim_C3 (t : FSNode) (root : String)
    (hd : t.isDirNode = true) (hr : allReadable t = true) :
    scanResults none t root 0 = pathsToLevel 1 t root ∧
    scanResults none t root 1 = pathsToLevel 2 t root ∧
    (∀ k : Nat, scanResults none t root (k : Int) = pathsToLevel (k + 1) t root) ∧
    (∀ m : Int, m < 0 → scanResults none t root m = allPathsUnder t root) := by
  have hk : ∀ k : Nat, scanResults none t root (k : Int) = pathsToLevel (k + 1) t root := by
    intro k
    simp [scanResults, scanDo_levels t root k hr hd]
  refine ⟨?_, ?_, hk, ?_⟩
  · have h0 := hk 0
    simpa using h0
  · have h1 := hk 1
    simpa using h1
  · intro m hm
    simp [scanResults, scanDo_unlimited t root m hm hr hd]

/-- Witness for claim C3 on a concrete readable tree. -/
theorem claim_C3_witness :
    scanResults none witTree1 ("r") 0 = pathsToLevel 1 witTree1 ("r") ∧
    scanResults none witTree1 ("r") (-1) = allPathsUnder witTree1 ("r") :=
  ⟨(claim_C3 witTree1 ("r") (by decide) (by decide)).1,
   (claim_C3 witTree1 ("r") (by decide) (by decide)).2.2.2 (-1) (by decide)⟩

/-- Counterexample for claim C2 as stated: on a tree whose root holds
one readable directory containing one file, the file-only filter
rejects the directory and the traversal does not descend into it, so
the scan returns nothing even though the unfiltered scan finds the
inner file; in particular the directory-only and file-only scans do
not partition the unfiltered result. -/
theorem claim_C2_counterexample :
    scanResults (some FilterFile) treeCex2 ("root") (-1) = [] ∧
    ("root/sub/a.txt") ∈ scanResults none treeCex2 ("root") (-1) ∧
    ("root/sub/a.txt") ∉ scanResults (some FilterDir) treeCex2 ("root") (-1) := by
  decide

/-- Claim C2, amended: rejection by the predicate suppresses both the
result emission and the descent, so each filtered scan only yields
paths also produced by the unfiltered scan, and the directory-only and
file-only scans partition the unfiltered result exactly at depth zero,
where no descent happens anyway. -/
theorem claim_C2 (t : FSNode) (root : String) (m : Int) :
    (∀ x, x ∈ scanResults (some FilterDir) t root m → x ∈ scanResults none t root m) ∧
    (∀ x, x ∈ scanResults (some FilterFile) t root m → x ∈ scanResults none t root m) ∧
    (∀ p, ((scanResults none t root 0).count p) =
      ((scanResults (some FilterDir) t root 0).count p) +
      ((scanResults (some FilterFile) t root 0).count p)) := by
  refine ⟨fun x hx => scan_filter_subset_all.1 t FilterDir root m x hx,
          fun x hx => scan_filter_subset_all.1 t FilterFile root m x hx, ?_⟩
  intro p
  cases t with
  | file n i =>
    simp [scanResults, scanDo]
  | dir n r i cs =>
    cases r with
    | false => simp [scanResults, scanDo]
    | true => simpa [scanResults, scanDo] using scanKids_zero_count cs root p

/-- Witness for the amended claim C2 on a concrete tree. -/
theorem claim_C2_witness :
    ("root/sub") ∈ scanResults none treeCex2 ("root") (-1) ∧
    ((scanResults none treeCex2 ("root") 0).count ("root/sub")) =
      ((scanResults (some FilterDir) treeCex2 ("root") 0).count ("root/sub")) +
      ((scanResults (some FilterFile) treeCex2 ("root") 0).count ("root/sub")) :=
  ⟨(claim_C2 treeCex2 ("root") (-1)).1 ("root/sub") (by decide),
   (claim_C2 treeCex2 ("root") (-1)).2.2 ("root/sub")⟩

/-- Counterexample for claim C4 as stated: on a tree with one
unreadable subdirectory listed before a readable sibling file, there
is a realizable interleaving in which the error is received before the
sibling result, so the synchronous collector returns without the
sibling result even though the unfiltered scan emitted it: the
collector does not return all results from the readable siblings. -/
theorem claim_C4_counterexample :
    Observes none treeCex4 ("root") (-1)
      [ScanEvent.res ("root/bad"), ScanEvent.fail ("root/bad"), ScanEvent.res ("root/a.txt")] ∧
    collectSync
      [ScanEvent.res ("root/bad"), ScanEvent.fail ("root/bad"), ScanEvent.res ("root/a.txt")] =
      (["root/bad"], some ("root/bad")) ∧
    ("root/a.txt") ∈ scanResults none treeCex4 ("root") (-1) := by
  decide

/-- Claim C4, amended: with one unreadable subdirectory among
otherwise readable siblings and a depth that reaches it, the traversal
emits exactly one error, carrying that directory, and the failing
subtree contributes no results beyond the directory path itself; under
every interleaving the synchronous collector returns that single error
together with the results received before it, each of which the scan
emitted, but not necessarily every emitted result. -/
theorem claim_C4 (rn : String) (ri : Option FileInfo) (pre post : FSForest)
    (bn : String) (bi : Option FileInfo) (bcs : FSForest)
    (root : String) (m : Int) (sched : List ScanEvent)
    (hpre : allReadableF pre = true) (hpost : allReadableF post = true)
    (hm : m ≠ 0)
    (hobs : Observes none
      (.dir rn true ri (pre.append (.cons (.dir bn false bi bcs) post))) root m sched) :
    scanFailures none (.dir rn true ri (pre.append (.cons (.dir bn false bi bcs) post))) root m
      = [pathJoin root bn] ∧
    scanResults none (.dir rn true ri (pre.append (.cons (.dir bn false bi bcs) post))) root m
      = (scanKids none pre root m).1
          ++ pathJoin root bn :: (scanKids none post root m).1 ∧
    ∃ rs, collectSync sched = (rs, some (pathJoin root bn)) ∧
      ∀ p ∈ rs, p ∈ scanResults none
        (.dir rn true ri (pre.append (.cons (.dir bn false bi bcs) post))) root m := by
  have hpreE := scan_noFail_all.2 pre root m hpre
  have hpostE := scan_noFail_all.2 post root m hpost
  have happ := scanKids_append_eq pre (.cons (.dir bn false bi bcs) post) none root m
  have hbadsub : scanDo none (.dir bn false bi bcs) (pathJoin root bn) (m - 1)
      = ([], [pathJoin root bn]) := by
    simp [scanDo]
  have hcons : scanKids none (.cons (.dir bn false bi bcs) post) root m
      = (pathJoin root bn :: (scanKids none post root m).1,
         pathJoin root bn :: (scanKids none post root m).2) := by
    rw [scanKids_cons_none, if_pos ⟨hm, rfl⟩]
    simp [FSNode.entryName, hbadsub]
  have hscan : scanDo none (.dir rn true ri (pre.append (.cons (.dir bn false bi bcs) post)))
      root m
      = ((scanKids none pre root m).1
          ++ pathJoin root bn :: (scanKids none post root m).1,
         [pathJoin root bn]) := by
    simp [scanDo, happ, hcons, hpreE, hpostE]
  refine ⟨by simp [scanFailures, hscan], by simp [scanResults, hscan], ?_⟩
  have hstream : scanStream none
      (.dir rn true ri (pre.append (.cons (.dir bn false bi bcs) post))) root m
      = ((scanKids none pre root m).1
          ++ pathJoin root bn :: (scanKids none post root m).1).map ScanEvent.res
        ++ [ScanEvent.fail (pathJoin root bn)] := by
    simp [scanStream, scanResults, scanFailures, hscan]
  rw [Observes, hstream] at hobs
  have hfail : ScanEvent.fail (pathJoin root bn) ∈ sched :=
    hobs.mem_iff.mpr (List.mem_append_right _ (List.mem_cons_self _ _))
  obtain ⟨rs, e, hcol, hmem, hres⟩ := collectSync_first_fail sched ⟨_, hfail⟩
  have he : e = pathJoin root bn := by
    have h2 := hobs.mem_iff.mp hmem
    rcases List.mem_append.mp h2 with h3 | h3
    · obtain ⟨q, _, hq⟩ := List.mem_map.mp h3
      simp at hq
    · simpa using h3
  subst he
  refine ⟨rs, hcol, ?_⟩
  intro p hp
  have h2 := hobs.mem_iff.mp (hres p hp)
  rcases List.mem_append.mp h2 with h3 | h3
  · obtain ⟨q, hq1, hq2⟩ := List.mem_map.mp h3
    have hqp : q = p := by simpa using hq2
    subst hqp
    simpa [scanResults, hscan] using hq1
  · simp at h3

/-- Witness for the amended claim C4 on a concrete tree and a concrete
interleaving. -/
theorem claim_C4_witness :
    scanFailures none treeCex4 ("root") (-1) = [pathJoin ("root") ("bad")] :=
  (claim_C4 ("root") none .nil (.cons (.file ("a.txt") none) .nil) ("bad") none .nil
    ("root") (-1)
    [ScanEvent.res ("root/bad"), ScanEvent.fail ("root/bad"), ScanEvent.res ("root/a.txt")]
    (by decide) (by decide) (by decide) (by decide)).1

/-- Counterexample for claim C7 as stated: the size filter never
checks regularity, so a symbolic link entry of size 2000 is accepted
by the strictly-greater-than-1024 filter although it is not a regular
file. -/
theorem claim_C7_counterexample :
    FilterBySize 1024 (">") ("x") symlinkEntry = true ∧
    FilterRegular ("x") symlinkEntry = false := by
  decide

/-- Claim C7, amended: for every non-directory entry, the size filter
with threshold 1024 and the strictly-greater operator accepts the
entry exactly when its metadata resolves and the reported size exceeds
1024 — with no regularity check, so non-regular entries of larger size
are accepted too — and the size filter with threshold 0 and the
not-equal operator accepts the entry exactly when its metadata
resolves and the reported size is nonzero. -/
theorem claim_C7 (p : String) (de : DirEntry) (hd : de.isDir = false) :
    (FilterBySize 1024 (">") p de = true ↔ ∃ i, de.info = some i ∧ 1024 < i.size) ∧
    (FilterBySize 0 ("!=") p de = true ↔ ∃ i, de.info = some i ∧ i.size ≠ 0) := by
  cases hinfo : de.info with
  | none =>
    simp [FilterBySize, hinfo]
  | some i =>
    constructor
    · simp [FilterBySize, hinfo, decide_eq_true_iff]
    · simp [FilterBySize, hinfo, bne_iff_ne]

/-- Witness for the amended claim C7 on the symbolic link entry. -/
theorem claim_C7_witness :
    FilterBySize 1024 (">") ("x") symlinkEntry = true ↔
      ∃ i, symlinkEntry.info = some i ∧ 1024 < i.size :=
  (claim_C7 ("x") symlinkEntry (by decide)).1

/-- Claim C8: for every path and directory entry, the extension filter
given the extension with and without the leading dot returns the same
boolean, and it returns false for every directory entry, including a
directory named like a Go source file. -/
theorem claim_C8 (p : String) (de : DirEntry) :
    FilterByExtension ("go") p de = FilterByExtension (".go") p de ∧
    (de.isDir = true → FilterByExtension ("go") p de = false) := by
  constructor
  · cases hd : de.isDir with
    | true => simp [FilterByExtension, hd]
    | false =>
      simp only [FilterByExtension, hd, Bool.false_eq_true, if_false]
      have h1 : (filepathExt de.name == ("go")) = false :=
        beq_eq_false_iff_ne.mpr (filepathExt_ne_go de.name)
      have h2 : (filepathExt de.name == ("..go")) = false :=
        beq_eq_false_iff_ne.mpr (filepathExt_ne_dotdotgo de.name)
      rw [show (("." ++ "go" : String)) = (".go") from rfl,
        show (("." ++ ".go" : String)) = ("..go") from rfl, h1, h2]
      simp
  · intro hd
    simp [FilterByExtension, hd]

/-- Witness for claim C8 on a directory entry named foo.go. -/
theorem claim_C8_witness :
    FilterByExtension ("go") ("x") dirGoEntry = false :=
  (claim_C8 ("x") dirGoEntry).2 rfl

/-- Claim C9: every library predicate that consults entry metadata
returns false when the metadata resolution fails, for every size
threshold and operator string; the failure is absorbed as a non-match
and never becomes a traversal error. -/
theorem claim_C9 (p : String) (de : DirEntry) (sz : Int) (op : String)
    (h : de.info = none) :
    FilterRegular p de = false ∧ FilterSymlink p de = false ∧
    FilterDevice p de = false ∧ FilterNamedPipe p de = false ∧
    FilterSocket p de = false ∧ FilterCharDev p de = false ∧
    FilterBySize sz op p de = false := by
  simp [FilterRegular, FilterSymlink, FilterDevice, FilterNamedPipe,
    FilterSocket, FilterCharDev, FilterBySize, h]

/-- Witness for claim C9 on an entry without metadata. -/
theorem claim_C9_witness : FilterRegular ("p") noInfoEntry = false :=
  (claim_C9 ("p") noInfoEntry 0 ("<") rfl).1

/-- Claim C10: when the root directory itself cannot be read, the
synchronous collector returns, under every interleaving, the empty
result list together with that single read error; the embedding always
yields a list, mirroring that the collector starts from an allocated
empty slice. -/
theorem claim_C10 (n : String) (ri : Option FileInfo) (cs : FSForest) (root : String)
    (m : Int) (sched : List ScanEvent)
    (hobs : Observes none (.dir n false ri cs) root m sched) :
    collectSync sched = ([], some root) := by
  have hscan : scanDo none (.dir n false ri cs) root m = ([], [root]) := by
    simp [scanDo]
  have hstream : scanStream none (.dir n false ri cs) root m = [ScanEvent.fail root] := by
    simp [scanStream, scanResults, scanFailures, hscan]
  rw [Observes, hstream, List.perm_singleton] at hobs
  rw [hobs]
  rfl

/-- Witness for claim C10 on a concrete unreadable root. -/
theorem claim_C10_witness : collectSync [ScanEvent.fail ("r")] = ([], some ("r")) :=
  claim_C10 ("r") none .nil ("r") (-1) [ScanEvent.fail ("r")] (by decide)

end Scanner
